import Mathlib

/-
Shallow embedding of the episub/go-forms library (form.go, validation.go).

A Go `interface{}` value reaching this library is modelled by `Value`:
the dynamic types the code inspects (bool, string, uuid.UUID, the nil
interface) get their own constructors, and every other dynamic type is
`other typeName display`, carrying what `%T` and `%v` would print for it.
Go `error` values are modelled by their message strings; a function
returning `(T, error)` becomes a Lean function returning a pair whose
second component is `Option String`.  Go maps are association lists with
pairwise-distinct keys.
-/

set_option autoImplicit false

namespace GoForms

/-- Model of `github.com/gofrs/uuid`'s `UUID` type (`[16]byte`). -/
structure UUIDv where
  bytes : List Nat
deriving DecidableEq, Repr

/-- Zero value of `uuid.UUID`, what `uuid.FromString` returns alongside an error. -/
def uuidNil : UUIDv := ⟨List.replicate 16 0⟩

/-- Model of a Go `interface{}` value as the library observes it. -/
inductive Value where
  | bool (b : Bool)
  | str (s : String)
  | uuid (u : UUIDv)
  | null
  | other (typeName : String) (display : String)
deriving DecidableEq, Repr

/-- What Go's `%T` verb prints for the dynamic type of a `Value`. -/
def goTypeName : Value → String
  | .bool _ => "bool"
  | .str _ => "string"
  | .uuid _ => "uuid.UUID"
  | .null => "<nil>"
  | .other t _ => t

/-- Hex rendering of one byte, two lowercase digits. -/
def hexByte (n : Nat) : String :=
  let dig := fun m => String.singleton (Char.ofNat (if m < 10 then 48 + m else 87 + m))
  dig (n / 16 % 16) ++ dig (n % 16)

/-- Canonical 8-4-4-4-12 rendering of a UUID, as `uuid.UUID.String()` prints it. -/
def uuidString (u : UUIDv) : String :=
  let hx := fun (l : List Nat) => String.join (l.map hexByte)
  hx (u.bytes.take 4) ++ "-" ++ hx ((u.bytes.drop 4).take 2) ++ "-"
    ++ hx ((u.bytes.drop 6).take 2) ++ "-" ++ hx ((u.bytes.drop 8).take 2) ++ "-"
    ++ hx (u.bytes.drop 10)

/-- What Go's `%v` verb (default formatting, `fmt.Sprintf`) prints for a `Value`. -/
def goFormat : Value → String
  | .bool b => if b then "true" else "false"
  | .str s => s
  | .uuid u => uuidString u
  | .null => "<nil>"
  | .other _ d => d

/-- Model of Go's `unicode.IsSpace` (the characters `strings.TrimSpace` strips). -/
def goIsSpace (c : Char) : Bool :=
  c = ' ' || c = '\t' || c = '\n' || c = (Char.ofNat 11) || c = (Char.ofNat 12) ||
  c = '\r' || c.val = 0x85 || c.val = 0xA0 ||
  c.val = 0x1680 || (0x2000 ≤ c.val && c.val ≤ 0x200A) ||
  c.val = 0x2028 || c.val = 0x2029 || c.val = 0x202F || c.val = 0x205F || c.val = 0x3000

/-- Model of Go's `strings.TrimSpace`: drop leading and trailing white space. -/
def trimSpace (s : String) : String :=
  ⟨((s.toList.dropWhile goIsSpace).reverse.dropWhile goIsSpace).reverse⟩

/-- Value of a hex digit character, `none` for a non-hex character. -/
def hexVal (c : Char) : Option Nat :=
  if '0' ≤ c ∧ c ≤ '9' then some (c.toNat - '0'.toNat)
  else if 'a' ≤ c ∧ c ≤ 'f' then some (c.toNat - 'a'.toNat + 10)
  else if 'A' ≤ c ∧ c ≤ 'F' then some (c.toNat - 'A'.toNat + 10)
  else none

/-- Decode a list of hex characters two at a time into bytes. -/
def hexPairs : List Char → Option (List Nat)
  | [] => some []
  | c1 :: c2 :: rest => do
    let hi ← hexVal c1
    let lo ← hexVal c2
    let tail ← hexPairs rest
    pure ((hi * 16 + lo) :: tail)
  | _ => none

/-- Index positions of the hyphens in the canonical 8-4-4-4-12 UUID form. -/
def dashPositions : List Nat := [8, 13, 18, 23]

/-- Model of the external dependency `github.com/gofrs/uuid`'s `FromString`,
restricted to the canonical hyphenated 8-4-4-4-12 hexadecimal form the
repository's spec and tests exercise. -/
def uuidFromString (s : String) : Except String UUIDv :=
  let l := s.toList
  if l.length = 36 ∧ dashPositions.all fun i => l.getD i ' ' = '-' then
    match hexPairs ((l.enum.filter fun p => decide (p.1 ∉ dashPositions)).map Prod.snd) with
    | some bs => .ok ⟨bs⟩
    | none => .error "uuid: incorrect UUID format"
  else
    .error ("uuid: incorrect UUID length: " ++ toString l.length)

/-- Embedding of `ensureBool` (form.go): a bool passes through; a string is
optionally trimmed then matched against true/on, false/off; anything else is a
type-mismatch error.  The first component is Go's first return value (nil on
the error paths). -/
def ensureBool (s : Value) (trimSpaceFlag : Bool) : Value × Option String :=
  match s with
  | .bool _ => (s, none)
  | .str s0 =>
    let str := if trimSpaceFlag then trimSpace s0 else s0
    if str = "true" ∨ str = "on" then (.bool true, none)
    else if str = "false" ∨ str = "off" then (.bool false, none)
    else (.null, some "field must be true or false")
  | _ => (.null, some ("Cannot convert type " ++ goTypeName s ++ " to bool"))

/-- Embedding of `ensureString` (form.go, current revision): a string is
default-formatted (the identity on strings) and optionally trimmed; any other
dynamic type is a type-mismatch error. -/
def ensureString (s : Value) (trimSpaceFlag : Bool) : Value × Option String :=
  match s with
  | .str _ =>
    if trimSpaceFlag then (.str (trimSpace (goFormat s)), none)
    else (.str (goFormat s), none)
  | _ => (.null, some ("Cannot convert type " ++ goTypeName s ++ " to string"))

/-- Embedding of the legacy `ensureString` revision (validation.go appendix):
stringify any input via default `%v` formatting, never fail. -/
def ensureStringLegacy (s : Value) : Value × Option String :=
  (.str (goFormat s), none)

/-- Embedding of `ensureUUID` (form.go): a `uuid.UUID` passes through; a string
is optionally trimmed then parsed; anything else is a type-mismatch error.  On
a failed parse Go returns the pair `(uuid.UUID zero value, err)`. -/
def ensureUUID (s : Value) (trimSpaceFlag : Bool) : Value × Option String :=
  match s with
  | .uuid _ => (s, none)
  | .str s0 =>
    let str := if trimSpaceFlag then trimSpace s0 else s0
    match uuidFromString str with
    | .ok u => (.uuid u, none)
    | .error e => (.uuid uuidNil, some e)
  | _ => (.null, some ("Cannot convert type " ++ goTypeName s ++ " to uuid.UUID"))

/-- A validator (`type Validator func(interface{}) error`): `none` is success. -/
def Validator : Type := Value → Option String

/-- Embedding of `FieldDefinition` (form.go).  `fieldType` embeds the string
type `TypeName`; the recognised values are "bool", "string", "uuid". -/
structure FieldDefinition where
  name : String := ""
  group : String := ""
  fieldType : String := ""
  validations : List Validator := []
  disableTrim : Bool := false

/-- Embedding of `Definition` (form.go): the field map, as an association list
with pairwise-distinct keys (a Go map). -/
structure Definition where
  fields : List (String × FieldDefinition)

/-- Embedding of `ApplyOptions` (form.go).  `errorOnPermission` embeds the
string type `MissingErrorOption` ("" none / "warn" / "fail"). -/
structure ApplyOptions where
  errorOnPermission : String := ""

/-- Embedding of `inList` (form.go): linear scan for an exact match. -/
def inList (list : List String) (str : String) : Bool :=
  list.any fun v => v = str

/-- Update-or-insert on an association list, the effect of `m[k] = a` on a Go
map: replaces the first binding of `k`, appends a new binding when absent. -/
def mapSet {α : Type} : List (String × α) → String → α → List (String × α)
  | [], k, a => [(k, a)]
  | (k1, a1) :: rest, k, a =>
    if k1 = k then (k, a) :: rest else (k1, a1) :: mapSet rest k a

/-- Value of a Go map read `m[k]` when values are slices: the nil slice `[]`
when the key is absent. -/
def lookupD {α : Type} (m : List (String × List α)) (k : String) : List α :=
  (List.lookup k m).getD []

/-- Effect of `errors[k] = append(errors[k], e)` on the errors map. -/
def appendErr (m : List (String × List String)) (k : String) (e : String) :
    List (String × List String) :=
  mapSet m k (lookupD m k ++ [e])

/-- Append a list of errors to `errors[k]` one at a time, in order; the empty
list leaves the map untouched (no `append` statement runs). -/
def appendErrs (m : List (String × List String)) (k : String) (l : List String) :
    List (String × List String) :=
  l.foldl (fun acc e => appendErr acc k e) m

/-- Write `applied[k] = a` when an assignment happened, no-op when the switch
took the `default` branch (which assigns only `err`). -/
def setOpt (m : List (String × Value)) (k : String) : Option Value → List (String × Value)
  | none => m
  | some a => mapSet m k a

/-- The type-switch of `ApplyDefinition` (form.go lines 109-118): dispatch on
the declared field type.  For the three known types Go executes
`applied[k], err = ensureXxx(v, !fieldDef.DisableTrim)`, so the map entry is
written whether or not `err` is nil; the `default` branch assigns only `err`. -/
def coerceValue (fieldDef : FieldDefinition) (k : String) (v : Value) :
    Option Value × Option String :=
  match fieldDef.fieldType with
  | "bool" =>
    let r := ensureBool v (!fieldDef.disableTrim)
    (some r.1, r.2)
  | "string" =>
    let r := ensureString v (!fieldDef.disableTrim)
    (some r.1, r.2)
  | "uuid" =>
    let r := ensureUUID v (!fieldDef.disableTrim)
    (some r.1, r.2)
  | t => (none, some ("Unknown field type " ++ t ++ " when converting field " ++ k))

/-- Effect of one iteration of the loop body of `ApplyDefinition` (form.go
lines 88-133) on the entry for key `k`: the `applied[k]` write (if any) and the
list of errors appended to `errors[k]`, in order.  The loop body only ever
touches the maps at the key `k` it is processing. -/
def processKey (d : Definition) (permittedFields : List String) (options : ApplyOptions)
    (k : String) (v : Value) : Option Value × List String :=
  if !inList permittedFields k then
    -- not permitted: "warn" only logs, "fail" records the error, anything
    -- else (including "") drops silently; then `continue`
    (none,
      match options.errorOnPermission with
      | "fail" => ["Using field " ++ k ++ " not permitted"]
      | _ => [])
  else
    match List.lookup k d.fields with
    | none => (none, [])  -- not in the definitions: `continue`
    | some fieldDef =>
      match coerceValue fieldDef k v with
      | (av, some e) => (av, [e])  -- wrong type: record error, skip validations
      | (some r, none) =>
        -- each validator runs on applied[k] (= r); each failure is appended
        (some r, fieldDef.validations.filterMap fun validator => validator r)
      | (none, none) => (none, [])  -- unreachable: coerceValue never returns this

/-- The pair of maps the loop threads along. -/
structure ApplyState where
  applied : List (String × Value)
  errors : List (String × List String)

/-- One loop iteration of `ApplyDefinition`, as a fold step over the state. -/
def applyStep (d : Definition) (permittedFields : List String) (options : ApplyOptions)
    (st : ApplyState) (kv : String × Value) : ApplyState :=
  let pk := processKey d permittedFields options kv.1 kv.2
  ⟨setOpt st.applied kv.1 pk.1, appendErrs st.errors kv.1 pk.2⟩

/-- The triple `ApplyDefinition` returns. -/
structure ApplyResult where
  applied : List (String × Value)
  errors : List (String × List String)
  topErr : Option String

/-- Embedding of `ApplyDefinition` (form.go lines 73-137).  The input map `m`
is an association list whose key order stands for Go's arbitrary map iteration
order. -/
def ApplyDefinition (d : Definition) (permittedFields : List String)
    (m : List (String × Value)) (options : ApplyOptions) : ApplyResult :=
  if permittedFields.length = 0 then
    ⟨[], [], some "Must provide a list of permitted fields with one or more fields"⟩
  else
    let st := m.foldl (applyStep d permittedFields options) ⟨[], []⟩
    ⟨st.applied, st.errors, none⟩

/-- Embedding of `ValidateRegex` (validation.go): the compiled pattern is
abstracted to its matching predicate on strings. -/
def ValidateRegex (rx : String → Bool) (message : String) : Validator :=
  fun s =>
    match s with
    | .str value => if rx value then none else some message
    | _ => some "Field must be string"

/-- Matching predicate of `numberRx` (`^-?\d*$`, RE2 with both anchors, `\d`
being `[0-9]`): an optional leading minus sign, then only decimal digits. -/
def numberRx (s : String) : Bool :=
  match s.toList with
  | '-' :: rest => rest.all Char.isDigit
  | l => l.all Char.isDigit

/-- Embedding of `ValidateNumbers` (validation.go). -/
def ValidateNumbers : Validator :=
  ValidateRegex numberRx "Must be numbers only"

/-- The loop of `ValidateOrChain`'s returned closure: try each validator,
return success at the first one that passes, otherwise collect the message. -/
def orChainRun (s : Value) : List Validator → List String → Option String
  | [], errs =>
    -- happens if there are no validators (or all failed)
    if errs.length = 0 then none
    else some (String.intercalate " or " errs)
  | vd :: rest, errs =>
    match vd s with
    | some e => orChainRun s rest (errs ++ [e])
    | none => none  -- just need one in the chain to pass

/-- Embedding of `ValidateOrChain` (validation.go lines 25-45). -/
def ValidateOrChain (validators : List Validator) : Validator :=
  fun s => orChainRun s validators []

/-- Whether a `Value`'s dynamic type is `bool`. -/
def isBoolValue : Value → Bool
  | .bool _ => true
  | _ => false

/-- Whether a `Value`'s dynamic type is `string`. -/
def isStringValue : Value → Bool
  | .str _ => true
  | _ => false

theorem lookup_mapSet_self {α : Type} (m : List (String × α)) (k : String) (a : α) :
    List.lookup k (mapSet m k a) = some a := by
  induction m with
  | nil => simp [mapSet, List.lookup]
  | cons p rest ih =>
    obtain ⟨k1, a1⟩ := p
    by_cases h : k1 = k
    · subst h
      simp [mapSet, List.lookup]
    · simp only [mapSet, if_neg h, List.lookup]
      rw [show (k == k1) = false by simp [Ne.symm h]]
      exact ih

theorem lookup_mapSet_ne {α : Type} (m : List (String × α)) (k k' : String) (a : α)
    (h : k' ≠ k) : List.lookup k' (mapSet m k a) = List.lookup k' m := by
  induction m with
  | nil =>
    simp only [mapSet, List.lookup]
    rw [show (k' == k) = false by simp [h]]
  | cons p rest ih =>
    obtain ⟨k1, a1⟩ := p
    by_cases h1 : k1 = k
    · have h2 : k' ≠ k1 := fun hh => h (hh.trans h1)
      simp only [mapSet, if_pos h1, List.lookup]
      rw [show (k' == k) = false by simp [h], show (k' == k1) = false by simp [h2]]
    · simp only [mapSet, if_neg h1, List.lookup]
      cases hb : k' == k1
      · exact ih
      · rfl

theorem lookupD_appendErr_self (m : List (String × List String)) (k : String) (e : String) :
    lookupD (appendErr m k e) k = lookupD m k ++ [e] := by
  simp [lookupD, appendErr, lookup_mapSet_self]

theorem lookup_appendErr_ne (m : List (String × List String)) (k k' : String) (e : String)
    (h : k' ≠ k) : List.lookup k' (appendErr m k e) = List.lookup k' m := by
  simp [appendErr, lookup_mapSet_ne _ _ _ _ h]

theorem lookup_appendErrs_ne (m : List (String × List String)) (k k' : String)
    (l : List String) (h : k' ≠ k) :
    List.lookup k' (appendErrs m k l) = List.lookup k' m := by
  induction l generalizing m with
  | nil => rfl
  | cons e rest ih =>
    show List.lookup k' (appendErrs (appendErr m k e) k rest) = _
    rw [ih, lookup_appendErr_ne _ _ _ _ h]

theorem lookup_appendErrs_self (m : List (String × List String)) (k : String)
    (l : List String) (h : l ≠ []) :
    List.lookup k (appendErrs m k l) = some (lookupD m k ++ l) := by
  induction l generalizing m with
  | nil => exact absurd rfl h
  | cons e rest ih =>
    show List.lookup k (appendErrs (appendErr m k e) k rest) = _
    cases rest with
    | nil =>
      show List.lookup k (appendErr m k e) = _
      simp [appendErr, lookup_mapSet_self]
    | cons e1 rest1 =>
      rw [ih _ (by simp), lookupD_appendErr_self]
      simp

theorem foldl_untouched (d : Definition) (p : List String) (o : ApplyOptions)
    (rest : List (String × Value)) (st : ApplyState) (k : String)
    (hk : k ∉ rest.map Prod.fst) :
    List.lookup k (rest.foldl (applyStep d p o) st).applied = List.lookup k st.applied ∧
    List.lookup k (rest.foldl (applyStep d p o) st).errors = List.lookup k st.errors := by
  induction rest generalizing st with
  | nil => exact ⟨rfl, rfl⟩
  | cons kv rest1 ih =>
    have hk1 : k ≠ kv.1 := by
      intro heq
      exact hk (by simp [heq])
    have hrest : k ∉ rest1.map Prod.fst := by
      intro hmem
      exact hk (by simp [hmem])
    have := ih (applyStep d p o st kv) hrest
    refine ⟨?_, ?_⟩
    · rw [List.foldl_cons, this.1]
      show List.lookup k (setOpt st.applied kv.1 _) = _
      cases hpk : (processKey d p o kv.1 kv.2).1 with
      | none => rfl
      | some a => simpa [setOpt, hpk] using lookup_mapSet_ne st.applied kv.1 k a hk1
    · rw [List.foldl_cons, this.2]
      exact lookup_appendErrs_ne _ _ _ _ hk1

theorem foldl_lookup (d : Definition) (p : List String) (o : ApplyOptions)
    (m : List (String × Value)) (st : ApplyState) (k : String)
    (hnd : (m.map Prod.fst).Nodup) :
    List.lookup k (m.foldl (applyStep d p o) st).applied =
      (match List.lookup k m with
       | none => List.lookup k st.applied
       | some v =>
         match (processKey d p o k v).1 with
         | none => List.lookup k st.applied
         | some a => some a) ∧
    List.lookup k (m.foldl (applyStep d p o) st).errors =
      (match List.lookup k m with
       | none => List.lookup k st.errors
       | some v =>
         match (processKey d p o k v).2 with
         | [] => List.lookup k st.errors
         | l => some (lookupD st.errors k ++ l)) := by
  induction m generalizing st with
  | nil => exact ⟨rfl, rfl⟩
  | cons kv rest ih =>
    obtain ⟨k1, v1⟩ := kv
    rw [List.map_cons, List.nodup_cons] at hnd
    by_cases hkk : k = k1
    · subst hkk
      have hu := foldl_untouched d p o rest (applyStep d p o st (k, v1)) k hnd.1
      have hl : List.lookup k ((k, v1) :: rest) = some v1 := by simp [List.lookup]
      rw [List.foldl_cons, hl]
      refine ⟨?_, ?_⟩
      · rw [hu.1]
        show List.lookup k (setOpt st.applied k (processKey d p o k v1).1) = _
        cases hpk : (processKey d p o k v1).1 with
        | none => simp [setOpt, hpk]
        | some a => simp [setOpt, hpk, lookup_mapSet_self]
      · rw [hu.2]
        show List.lookup k (appendErrs st.errors k (processKey d p o k v1).2) = _
        cases hpk : (processKey d p o k v1).2 with
        | nil => simp [hpk, appendErrs]
        | cons e l =>
          rw [lookup_appendErrs_self _ _ _ (by simp)]
          simp [hpk]
    · have hbeq : (k == k1) = false := by simp [hkk]
      have hst1 : List.lookup k (applyStep d p o st (k1, v1)).applied
          = List.lookup k st.applied := by
        show List.lookup k (setOpt st.applied k1 (processKey d p o k1 v1).1) = _
        cases hpk : (processKey d p o k1 v1).1 with
        | none => rfl
        | some a => simpa [setOpt] using lookup_mapSet_ne st.applied k1 k a hkk
      have hst2 : List.lookup k (applyStep d p o st (k1, v1)).errors
          = List.lookup k st.errors :=
        lookup_appendErrs_ne _ _ _ _ hkk
      have hst3 : lookupD (applyStep d p o st (k1, v1)).errors k = lookupD st.errors k := by
        simp [lookupD, hst2]
      have hl : List.lookup k ((k1, v1) :: rest) = List.lookup k rest := by
        simp [List.lookup, hbeq]
      have h1 := (ih (applyStep d p o st (k1, v1)) hnd.2).1
      have h2 := (ih (applyStep d p o st (k1, v1)) hnd.2).2
      rw [List.foldl_cons]
      refine ⟨?_, ?_⟩
      · rw [h1, hl]
        cases hm : List.lookup k rest with
        | none => simp [hst1]
        | some v =>
          cases hpk : (processKey d p o k v).1 with
          | none => simp [hpk, hst1]
          | some a => simp [hpk]
      · rw [h2, hl]
        cases hm : List.lookup k rest with
        | none => simp [hst2]
        | some v =>
          cases hpk : (processKey d p o k v).2 with
          | nil => simp [hpk, hst2]
          | cons e l => simp [hpk, hst3]

theorem processKey_not_permitted (d : Definition) (p : List String) (o : ApplyOptions)
    (k : String) (v : Value) (hperm : inList p k = false) :
    processKey d p o k v =
      (none,
        match o.errorOnPermission with
        | "fail" => ["Using field " ++ k ++ " not permitted"]
        | _ => []) := by
  simp [processKey, hperm]

theorem processKey_not_permitted_fst (d : Definition) (p : List String) (o : ApplyOptions)
    (k : String) (v : Value) (hperm : inList p k = false) :
    (processKey d p o k v).1 = none := by
  rw [processKey_not_permitted d p o k v hperm]

theorem processKey_not_permitted_snd (d : Definition) (p : List String) (o : ApplyOptions)
    (k : String) (v : Value) (hperm : inList p k = false) :
    (processKey d p o k v).2 =
      match o.errorOnPermission with
      | "fail" => ["Using field " ++ k ++ " not permitted"]
      | _ => [] := by
  rw [processKey_not_permitted d p o k v hperm]

theorem processKey_no_field (d : Definition) (p : List String) (o : ApplyOptions)
    (k : String) (v : Value) (hperm : inList p k = true)
    (hfd : List.lookup k d.fields = none) :
    processKey d p o k v = (none, []) := by
  simp [processKey, hperm, hfd]

theorem processKey_found (d : Definition) (p : List String) (o : ApplyOptions)
    (k : String) (v : Value) (fd : FieldDefinition) (hperm : inList p k = true)
    (hfd : List.lookup k d.fields = some fd) :
    processKey d p o k v =
      match coerceValue fd k v with
      | (av, some e) => (av, [e])
      | (some r, none) => (some r, fd.validations.filterMap fun validator => validator r)
      | (none, none) => (none, []) := by
  simp [processKey, hperm, hfd]

theorem coerceValue_fst_isSome (fd : FieldDefinition) (k : String) (v : Value) :
    ((coerceValue fd k v).1).isSome = true ↔
      fd.fieldType = "bool" ∨ fd.fieldType = "string" ∨ fd.fieldType = "uuid" := by
  unfold coerceValue
  split
  · simp_all
  · simp_all
  · simp_all
  · rename_i t h1 h2 h3
    simp_all

theorem ApplyDefinition_applied_lookup (d : Definition) (p : List String)
    (m : List (String × Value)) (o : ApplyOptions) (k : String)
    (hp : p ≠ []) (hnd : (m.map Prod.fst).Nodup) :
    List.lookup k (ApplyDefinition d p m o).applied =
      (List.lookup k m).bind fun v => (processKey d p o k v).1 := by
  have hlen : ¬ p.length = 0 := by simpa using hp
  have h := (foldl_lookup d p o m ⟨[], []⟩ k hnd).1
  rw [ApplyDefinition, if_neg hlen]
  show List.lookup k (m.foldl (applyStep d p o) ⟨[], []⟩).applied = _
  rw [h]
  cases hm : List.lookup k m with
  | none => rfl
  | some v =>
    cases hpk : (processKey d p o k v).1 with
    | none => simp [List.lookup, hpk]
    | some a => simp [List.lookup, hpk]

theorem ApplyDefinition_errors_lookup (d : Definition) (p : List String)
    (m : List (String × Value)) (o : ApplyOptions) (k : String)
    (hp : p ≠ []) (hnd : (m.map Prod.fst).Nodup) :
    List.lookup k (ApplyDefinition d p m o).errors =
      (List.lookup k m).bind fun v =>
        match (processKey d p o k v).2 with
        | [] => none
        | l => some l := by
  have hlen : ¬ p.length = 0 := by simpa using hp
  have h := (foldl_lookup d p o m ⟨[], []⟩ k hnd).2
  rw [ApplyDefinition, if_neg hlen]
  show List.lookup k (m.foldl (applyStep d p o) ⟨[], []⟩).errors = _
  rw [h]
  cases hm : List.lookup k m with
  | none => rfl
  | some v =>
    cases hpk : (processKey d p o k v).2 with
    | nil => simp [List.lookup, hpk]
    | cons e l => simp [List.lookup, hpk, lookupD]

/-- A one-field definition declaring "a" as a bool field, used as a concrete fixture. -/
def exBoolDef : Definition := ⟨[("a", { fieldType := "bool" })]⟩

/-- Options with permission mode none (the empty `MissingErrorOption`). -/
def exOptsNone : ApplyOptions := ⟨""⟩

/-- Options with permission mode fail. -/
def exOptsFail : ApplyOptions := ⟨"fail"⟩

/-- C1, counterexample.  The claim says the coerced mapping contains a key only
when coercion of its value succeeds.  On the input value "dunno" for the
declared bool field "a" coercion fails (the error "field must be true or false"
is recorded), yet Go's `applied[k], err = ensureBool(v, ...)` writes the map
entry unconditionally, so the key "a" is present in the coerced mapping, bound
to the nil interface value. -/
theorem C1_counterexample :
    (ensureBool (Value.str "dunno") true).2 = some "field must be true or false" ∧
    List.lookup "a" (ApplyDefinition exBoolDef ["a"] [("a", Value.str "dunno")] exOptsNone).errors
      = some ["field must be true or false"] ∧
    List.lookup "a" (ApplyDefinition exBoolDef ["a"] [("a", Value.str "dunno")] exOptsNone).applied
      = some Value.null := by
  refine ⟨rfl, rfl, rfl⟩

/-- C1, amended.  The coerced mapping contains a key k iff k is an input key,
k is permitted, k has an entry in the field map, and that entry declares one of
the three known field types (on coercion failure the entry is present but holds
Go's nil interface, or the zero UUID); the error mapping contains a key only
with a non-empty error list; a permitted key absent from the field map yields
no output entry and no error. -/
theorem C1_amended (d : Definition) (p : List String) (m : List (String × Value))
    (o : ApplyOptions) (k : String) (hp : p ≠ []) (hnd : (m.map Prod.fst).Nodup) :
    ((List.lookup k (ApplyDefinition d p m o).applied).isSome = true ↔
      ∃ v fd, List.lookup k m = some v ∧ inList p k = true ∧
        List.lookup k d.fields = some fd ∧
        (fd.fieldType = "bool" ∨ fd.fieldType = "string" ∨ fd.fieldType = "uuid")) ∧
    (∀ l, List.lookup k (ApplyDefinition d p m o).errors = some l → l ≠ []) ∧
    (inList p k = true → List.lookup k d.fields = none →
      List.lookup k (ApplyDefinition d p m o).applied = none ∧
      List.lookup k (ApplyDefinition d p m o).errors = none) := by
  have ha := ApplyDefinition_applied_lookup d p m o k hp hnd
  have he := ApplyDefinition_errors_lookup d p m o k hp hnd
  refine ⟨?_, ?_, ?_⟩
  · rw [ha]
    constructor
    · intro h
      cases hm : List.lookup k m with
      | none => rw [hm] at h; simp at h
      | some v =>
        rw [hm] at h
        simp only [Option.some_bind] at h
        by_cases hperm : inList p k
        · cases hfd : List.lookup k d.fields with
          | none => rw [processKey_no_field d p o k v hperm hfd] at h; simp at h
          | some fd =>
            rw [processKey_found d p o k v fd hperm hfd] at h
            refine ⟨v, fd, rfl, hperm, rfl, ?_⟩
            rw [← coerceValue_fst_isSome fd k v]
            rcases hc : coerceValue fd k v with ⟨av, err⟩
            rw [hc] at h
            cases av with
            | none => cases err with
              | none => simp at h
              | some e => simp at h
            | some r => simp
        · rw [processKey_not_permitted d p o k v (by simpa using hperm)] at h
          simp at h
    · rintro ⟨v, fd, hm, hperm, hfd, htype⟩
      rw [hm]
      simp only [Option.some_bind]
      rw [processKey_found d p o k v fd hperm hfd]
      have := (coerceValue_fst_isSome fd k v).mpr htype
      rcases hc : coerceValue fd k v with ⟨av, err⟩
      rw [hc] at this
      cases av with
      | none => simp at this
      | some r => cases err <;> simp
  · intro l hl
    rw [he] at hl
    cases hm : List.lookup k m with
    | none => rw [hm] at hl; simp at hl
    | some v =>
      rw [hm] at hl
      simp only [Option.some_bind] at hl
      cases hpk : (processKey d p o k v).2 with
      | nil => rw [hpk] at hl; simp at hl
      | cons e rest =>
        rw [hpk] at hl
        simp only [Option.some.injEq] at hl
        subst hl
        simp
  · intro hperm hfd
    rw [ha, he]
    cases hm : List.lookup k m with
    | none => exact ⟨rfl, rfl⟩
    | some v =>
      simp only [Option.some_bind]
      rw [processKey_no_field d p o k v hperm hfd]
      exact ⟨rfl, rfl⟩

/-- C1, witness for the amended theorem: on the end-to-end fixture the key "a"
with value "true" is coerced and present, while a permitted key missing from
the field map ("zz") produces no entry and no error. -/
theorem C1_witness :
    (List.lookup "a" (ApplyDefinition exBoolDef ["a", "zz"]
        [("a", Value.str "true"), ("zz", Value.str "x")] exOptsNone).applied).isSome = true ∧
    List.lookup "zz" (ApplyDefinition exBoolDef ["a", "zz"]
        [("a", Value.str "true"), ("zz", Value.str "x")] exOptsNone).applied = none := by
  constructor
  · exact (C1_amended exBoolDef ["a", "zz"] [("a", Value.str "true"), ("zz", Value.str "x")]
      exOptsNone "a" (by decide) (by decide)).1.mpr
      ⟨Value.str "true", { fieldType := "bool" }, rfl, rfl, rfl, Or.inl rfl⟩
  · exact ((C1_amended exBoolDef ["a", "zz"] [("a", Value.str "true"), ("zz", Value.str "x")]
      exOptsNone "zz" (by decide) (by decide)).2.2 rfl rfl).1

/-- C2, counterexample.  The claim quotes the top-level error as "must provide
one or more permitted fields"; the code's message is "Must provide a list of
permitted fields with one or more fields". -/
theorem C2_counterexample :
    (ApplyDefinition exBoolDef [] [] exOptsNone).topErr
      = some "Must provide a list of permitted fields with one or more fields" ∧
    (ApplyDefinition exBoolDef [] [] exOptsNone).topErr
      ≠ some "must provide one or more permitted fields" := by
  refine ⟨rfl, by decide⟩

/-- C2, amended.  ApplyDefinition returns a non-nil top-level error iff the
permittedFields list is empty; when empty it fails immediately with the
top-level error "Must provide a list of permitted fields with one or more
fields" and produces no coerced mapping and no per-field error mapping; for
every non-empty permittedFields list the top-level error is nil. -/
theorem C2_amended (d : Definition) (p : List String) (m : List (String × Value))
    (o : ApplyOptions) :
    ((ApplyDefinition d p m o).topErr
        = some "Must provide a list of permitted fields with one or more fields" ↔ p = []) ∧
    (p = [] → ApplyDefinition d p m o =
      ⟨[], [], some "Must provide a list of permitted fields with one or more fields"⟩) ∧
    (p ≠ [] → (ApplyDefinition d p m o).topErr = none) := by
  by_cases hp : p = []
  · subst hp
    exact ⟨by simp [ApplyDefinition], fun _ => rfl, fun h => absurd rfl h⟩
  · have hlen : ¬ p.length = 0 := by simpa using hp
    refine ⟨?_, fun h => absurd h hp, fun _ => ?_⟩
    · rw [ApplyDefinition, if_neg hlen]
      simp [hp]
    · rw [ApplyDefinition, if_neg hlen]

/-- C2, witness: the empty permitted list fails with the code's message, a
singleton permitted list yields a nil top-level error. -/
theorem C2_witness :
    ApplyDefinition exBoolDef [] [("a", Value.str "true")] exOptsNone =
      ⟨[], [], some "Must provide a list of permitted fields with one or more fields"⟩ ∧
    (ApplyDefinition exBoolDef ["a"] [("a", Value.str "true")] exOptsNone).topErr = none :=
  ⟨(C2_amended exBoolDef [] [("a", Value.str "true")] exOptsNone).2.1 rfl,
   (C2_amended exBoolDef ["a"] [("a", Value.str "true")] exOptsNone).2.2 (by decide)⟩

/-- C3.  Boolean coercion: a boolean passes through unchanged regardless of the
trim setting; a string is trimmed iff trimming is enabled and then matched
case-sensitively, "true" and "on" giving true, "false" and "off" giving false,
and every other string failing with "field must be true or false"; every other
dynamic type fails with a type-mismatch error naming the actual type and
"bool". -/
theorem C3_ensureBool_spec (trimFlag : Bool) :
    (∀ b : Bool, ensureBool (Value.bool b) trimFlag = (Value.bool b, none)) ∧
    (∀ s : String,
      ((if trimFlag then trimSpace s else s) = "true" ∨
          (if trimFlag then trimSpace s else s) = "on" →
        ensureBool (Value.str s) trimFlag = (Value.bool true, none)) ∧
      ((if trimFlag then trimSpace s else s) = "false" ∨
          (if trimFlag then trimSpace s else s) = "off" →
        ensureBool (Value.str s) trimFlag = (Value.bool false, none)) ∧
      ((if trimFlag then trimSpace s else s) ≠ "true" →
       (if trimFlag then trimSpace s else s) ≠ "on" →
       (if trimFlag then trimSpace s else s) ≠ "false" →
       (if trimFlag then trimSpace s else s) ≠ "off" →
        ensureBool (Value.str s) trimFlag
          = (Value.null, some "field must be true or false"))) ∧
    (∀ v : Value, isBoolValue v = false → isStringValue v = false →
      ensureBool v trimFlag
        = (Value.null, some ("Cannot convert type " ++ goTypeName v ++ " to bool"))) := by
  refine ⟨fun b => rfl, fun s => ⟨?_, ?_, ?_⟩, fun v hb hs => ?_⟩
  · intro h
    simp only [ensureBool]
    rw [if_pos h]
  · intro h
    have hne : ¬ ((if trimFlag then trimSpace s else s) = "true" ∨
        (if trimFlag then trimSpace s else s) = "on") := by
      rcases h with h | h <;> rw [h] <;> decide
    simp only [ensureBool]
    rw [if_neg hne, if_pos h]
  · intro h1 h2 h3 h4
    simp only [ensureBool]
    rw [if_neg (by simp [h1, h2]), if_neg (by simp [h3, h4])]
  · cases v with
    | bool b => simp [isBoolValue] at hb
    | str s => simp [isStringValue] at hs
    | uuid u => rfl
    | null => rfl
    | other t disp => rfl

/-- C3, witness: the spec's concrete cases, " true " and "on" coerce to true,
"off" to false, "dunno" errors, a native bool passes through with trimming
disabled, and a uuid-typed value gives the type-mismatch message. -/
theorem C3_witness :
    ensureBool (Value.str " true  ") true = (Value.bool true, none) ∧
    ensureBool (Value.str "on") false = (Value.bool true, none) ∧
    ensureBool (Value.str "off") true = (Value.bool false, none) ∧
    ensureBool (Value.str "dunno") false
      = (Value.null, some "field must be true or false") ∧
    ensureBool (Value.bool true) false = (Value.bool true, none) ∧
    ensureBool (Value.uuid uuidNil) true
      = (Value.null, some "Cannot convert type uuid.UUID to bool") :=
  ⟨((C3_ensureBool_spec true).2.1 " true  ").1 (by decide),
   ((C3_ensureBool_spec false).2.1 "on").1 (by decide),
   ((C3_ensureBool_spec true).2.1 "off").2.1 (by decide),
   ((C3_ensureBool_spec false).2.1 "dunno").2.2 (by decide) (by decide) (by decide) (by decide),
   (C3_ensureBool_spec false).1 true,
   (C3_ensureBool_spec true).2.2 (Value.uuid uuidNil) rfl rfl⟩

/-- C4.  String coercion: a string input yields the trimmed string when
trimming is enabled and the unchanged string when disabled, with no error;
every other dynamic type fails with a type-mismatch error and yields no value
(the nil interface). -/
theorem C4_ensureString_spec :
    (∀ s : String, ensureString (Value.str s) true = (Value.str (trimSpace s), none)) ∧
    (∀ s : String, ensureString (Value.str s) false = (Value.str s, none)) ∧
    (∀ (v : Value) (trimFlag : Bool), isStringValue v = false →
      ensureString v trimFlag
        = (Value.null, some ("Cannot convert type " ++ goTypeName v ++ " to string"))) := by
  refine ⟨fun s => rfl, fun s => rfl, fun v trimFlag hs => ?_⟩
  cases v with
  | bool b => rfl
  | str s => simp [isStringValue] at hs
  | uuid u => rfl
  | null => rfl
  | other t disp => rfl

/-- C4, witness: the spec's tabbed string trims when enabled and passes through
unchanged when disabled; a bool input errors. -/
theorem C4_witness :
    ensureString (Value.str "\t\tlorem ipsum\t ") true = (Value.str "lorem ipsum", none) ∧
    ensureString (Value.str "\t\tlorem ipsum\t ") false
      = (Value.str "\t\tlorem ipsum\t ", none) ∧
    ensureString (Value.bool true) false
      = (Value.null, some "Cannot convert type bool to string") := by
  refine ⟨?_, C4_ensureString_spec.2.1 "\t\tlorem ipsum\t ",
    C4_ensureString_spec.2.2 (Value.bool true) false rfl⟩
  have h := C4_ensureString_spec.1 "\t\tlorem ipsum\t "
  rw [h]
  rfl

/-- C5.  A non-permitted input key never reaches the coerced output in any
ErrorOnPermission mode; in mode fail exactly the single error
"Using field <name> not permitted" is recorded for it, and in every other mode
(none, warn, or any other value) no error is recorded for it. -/
theorem C5_not_permitted (d : Definition) (p : List String) (m : List (String × Value))
    (o : ApplyOptions) (k : String) (hp : p ≠ []) (hnd : (m.map Prod.fst).Nodup)
    (hperm : inList p k = false) :
    List.lookup k (ApplyDefinition d p m o).applied = none ∧
    ((List.lookup k m).isSome = true → o.errorOnPermission = "fail" →
      List.lookup k (ApplyDefinition d p m o).errors
        = some ["Using field " ++ k ++ " not permitted"]) ∧
    (o.errorOnPermission ≠ "fail" →
      List.lookup k (ApplyDefinition d p m o).errors = none) := by
  have ha := ApplyDefinition_applied_lookup d p m o k hp hnd
  have he := ApplyDefinition_errors_lookup d p m o k hp hnd
  refine ⟨?_, ?_, ?_⟩
  · rw [ha]
    cases hm : List.lookup k m with
    | none => rfl
    | some v =>
      simp only [Option.some_bind]
      rw [processKey_not_permitted d p o k v hperm]
  · intro hsome hfail
    rw [he]
    cases hm : List.lookup k m with
    | none => rw [hm] at hsome; simp at hsome
    | some v =>
      simp only [Option.some_bind]
      rw [processKey_not_permitted_snd d p o k v hperm, hfail]
      rfl
  · intro hfail
    rw [he]
    cases hm : List.lookup k m with
    | none => rfl
    | some v =>
      simp only [Option.some_bind]
      rw [processKey_not_permitted_snd d p o k v hperm]
      have h2 : (match o.errorOnPermission with
          | "fail" => ["Using field " ++ k ++ " not permitted"]
          | _ => []) = ([] : List String) := by
        split
        · next heq => exact absurd heq hfail
        · rfl
      rw [h2]

/-- C5, witness: the spec's field6 example, mode none records nothing, mode
fail records exactly the permission error; neither mode outputs the field. -/
theorem C5_witness :
    List.lookup "field6" (ApplyDefinition exBoolDef ["a"]
        [("field6", Value.str "x")] exOptsFail).applied = none ∧
    List.lookup "field6" (ApplyDefinition exBoolDef ["a"]
        [("field6", Value.str "x")] exOptsFail).errors
      = some ["Using field field6 not permitted"] ∧
    List.lookup "field6" (ApplyDefinition exBoolDef ["a"]
        [("field6", Value.str "x")] exOptsNone).errors = none :=
  ⟨(C5_not_permitted exBoolDef ["a"] [("field6", Value.str "x")] exOptsFail "field6"
      (by decide) (by decide) (by decide)).1,
   (C5_not_permitted exBoolDef ["a"] [("field6", Value.str "x")] exOptsFail "field6"
      (by decide) (by decide) (by decide)).2.1 rfl rfl,
   (C5_not_permitted exBoolDef ["a"] [("field6", Value.str "x")] exOptsNone "field6"
      (by decide) (by decide) (by decide)).2.2 (by decide)⟩

/-- C6.  For a permitted input key present in the field map: when coercion
fails (the unknown-declared-type case included) exactly the coercion error is
recorded under that key and no validator output appears; when coercion succeeds
every validator in the Validations list is applied to the coerced value in
declared order with no short-circuiting, and the key's error list is exactly
the failing validators' errors in that same order (collected from running every
validator, `map` then keeping the failures). -/
theorem C6_coercion_validators (d : Definition) (p : List String)
    (m : List (String × Value)) (o : ApplyOptions) (k : String) (v : Value)
    (fd : FieldDefinition) (hp : p ≠ []) (hnd : (m.map Prod.fst).Nodup)
    (hm : List.lookup k m = some v) (hperm : inList p k = true)
    (hfd : List.lookup k d.fields = some fd) :
    (∀ e, (coerceValue fd k v).2 = some e →
      List.lookup k (ApplyDefinition d p m o).errors = some [e]) ∧
    (∀ r, coerceValue fd k v = (some r, none) →
      List.lookup k (ApplyDefinition d p m o).errors =
        (match (fd.validations.map fun validator => validator r).filterMap id with
         | [] => none
         | l => some l)) := by
  have he := ApplyDefinition_errors_lookup d p m o k hp hnd
  rw [hm] at he
  simp only [Option.some_bind] at he
  rw [processKey_found d p o k v fd hperm hfd] at he
  constructor
  · intro e hc
    rcases hcv : coerceValue fd k v with ⟨av, err⟩
    rw [hcv] at he hc
    simp only at hc
    subst hc
    rw [he]
    cases av <;> rfl
  · intro r hc
    rw [hc] at he
    simp only at he
    rw [he, List.filterMap_map]
    rfl

/-- C6, witness: with a bool field carrying two validators, the input "dunno"
records exactly the coercion error, and the input "true" runs both validators
in order, collecting both failures. -/
theorem C6_witness :
    List.lookup "a" (ApplyDefinition
        ⟨[("a", { fieldType := "bool",
                  validations := [fun _ => some "e1", fun _ => none, fun _ => some "e2"] })]⟩
        ["a"] [("a", Value.str "dunno")] exOptsNone).errors
      = some ["field must be true or false"] ∧
    List.lookup "a" (ApplyDefinition
        ⟨[("a", { fieldType := "bool",
                  validations := [fun _ => some "e1", fun _ => none, fun _ => some "e2"] })]⟩
        ["a"] [("a", Value.str "true")] exOptsNone).errors
      = some ["e1", "e2"] := by
  constructor
  · exact (C6_coercion_validators
      ⟨[("a", { fieldType := "bool",
                validations := [fun _ => some "e1", fun _ => none, fun _ => some "e2"] })]⟩
      ["a"] [("a", Value.str "dunno")] exOptsNone "a" (Value.str "dunno")
      { fieldType := "bool",
        validations := [fun _ => some "e1", fun _ => none, fun _ => some "e2"] }
      (by decide) (by decide) rfl rfl rfl).1 "field must be true or false" rfl
  · exact (C6_coercion_validators
      ⟨[("a", { fieldType := "bool",
                validations := [fun _ => some "e1", fun _ => none, fun _ => some "e2"] })]⟩
      ["a"] [("a", Value.str "true")] exOptsNone "a" (Value.str "true")
      { fieldType := "bool",
        validations := [fun _ => some "e1", fun _ => none, fun _ => some "e2"] }
      (by decide) (by decide) rfl rfl rfl).2 (Value.bool true) rfl

theorem orChainRun_all_fail (s : Value) (vs : List Validator) (acc : List String)
    (h : ∀ vd ∈ vs, (vd s).isSome = true) :
    orChainRun s vs acc =
      (if (acc ++ vs.filterMap fun vd => vd s).length = 0 then none
       else some (String.intercalate " or " (acc ++ vs.filterMap fun vd => vd s))) := by
  induction vs generalizing acc with
  | nil => simp [orChainRun]
  | cons vd rest ih =>
    have hvd := h vd (by simp)
    rcases he : vd s with _ | e
    · rw [he] at hvd; simp at hvd
    · have step : orChainRun s (vd :: rest) acc = orChainRun s rest (acc ++ [e]) := by
        show (match vd s with
          | some e1 => orChainRun s rest (acc ++ [e1])
          | none => none) = _
        rw [he]
      rw [step, ih (acc ++ [e]) fun w hw => h w (by simp [hw])]
      simp [he, List.filterMap_cons, List.append_assoc]

theorem orChainRun_success (s : Value) (vs : List Validator) (acc : List String)
    (h : ∃ vd ∈ vs, vd s = none) :
    orChainRun s vs acc = none := by
  induction vs generalizing acc with
  | nil => simp at h
  | cons vd rest ih =>
    show (match vd s with
      | some e => orChainRun s rest (acc ++ [e])
      | none => none) = _
    rcases he : vd s with _ | e
    · rfl
    · obtain ⟨w, hw, hws⟩ := h
      rcases List.mem_cons.mp hw with rfl | hw1
      · rw [hws] at he; cases he
      · exact ih (acc ++ [e]) ⟨w, hw1, hws⟩

theorem orChainRun_none_inv (s : Value) (vs : List Validator) (acc : List String)
    (h : orChainRun s vs acc = none) :
    (vs = [] ∧ acc = []) ∨ ∃ vd ∈ vs, vd s = none := by
  induction vs generalizing acc with
  | nil =>
    left
    refine ⟨rfl, ?_⟩
    by_contra hne
    have : acc.length ≠ 0 := by simpa [List.length_eq_zero] using hne
    simp [orChainRun, this] at h
  | cons vd rest ih =>
    rw [show orChainRun s (vd :: rest) acc =
      (match vd s with
       | some e => orChainRun s rest (acc ++ [e])
       | none => none) from rfl] at h
    rcases he : vd s with _ | e
    · exact Or.inr ⟨vd, by simp, he⟩
    · rw [he] at h
      rcases ih (acc ++ [e]) h with ⟨_, hacc⟩ | ⟨w, hw, hws⟩
      · simp at hacc
      · exact Or.inr ⟨w, by simp [hw], hws⟩

/-- C7.  The OR-chain with zero delegates always succeeds; with delegates it
succeeds iff at least one delegate succeeds (delegates past the first success
cannot influence the outcome); and when every delegate fails it returns the
single error joining the delegates' messages, in delegate order, with the
literal separator " or ". -/
theorem C7_orChain (validators : List Validator) (s : Value) :
    ValidateOrChain [] s = none ∧
    (ValidateOrChain validators s = none ↔
      validators = [] ∨ ∃ vd ∈ validators, vd s = none) ∧
    ((∀ vd ∈ validators, (vd s).isSome = true) → validators ≠ [] →
      ValidateOrChain validators s
        = some (String.intercalate " or " (validators.filterMap fun vd => vd s))) := by
  refine ⟨rfl, ⟨fun h => ?_, fun h => ?_⟩, fun hall hne => ?_⟩
  · rcases orChainRun_none_inv s validators [] h with ⟨hv, _⟩ | hex
    · exact Or.inl hv
    · exact Or.inr hex
  · rcases h with rfl | hex
    · rfl
    · exact orChainRun_success s validators [] hex
  · rw [show ValidateOrChain validators s = orChainRun s validators [] from rfl,
      orChainRun_all_fail s validators [] hall]
    cases validators with
    | nil => exact absurd rfl hne
    | cons vd rest =>
      have hvd := hall vd (by simp)
      rcases he : vd s with _ | e
      · rw [he] at hvd; simp at hvd
      · simp [he]

/-- C7, witness: the zero-validator chain succeeds; an all-failing pair joins
both messages with " or "; a chain whose second delegate succeeds returns
success. -/
theorem C7_witness :
    ValidateOrChain [] (Value.str "x") = none ∧
    ValidateOrChain [fun _ => some "A", fun _ => some "B"] (Value.str "x")
      = some "A or B" ∧
    ValidateOrChain [fun _ => some "A", fun _ => none] (Value.str "x") = none := by
  refine ⟨(C7_orChain [] (Value.str "x")).1, ?_, ?_⟩
  · have h := (C7_orChain [fun _ => some "A", fun _ => some "B"] (Value.str "x")).2.2
      (by intro vd hvd
          simp only [List.mem_cons, List.not_mem_nil, or_false] at hvd
          rcases hvd with rfl | rfl <;> rfl)
      (by simp)
    rw [h]
    rfl
  · exact (C7_orChain [fun _ => some "A", fun _ => none] (Value.str "x")).2.1.mpr
      (Or.inr ⟨fun _ => none, by simp, rfl⟩)

theorem lookup_eq_of_perm {α : Type} (k : String) (m1 m2 : List (String × α))
    (h : m1.Perm m2) (hnd : (m1.map Prod.fst).Nodup) :
    List.lookup k m1 = List.lookup k m2 := by
  induction h with
  | nil => rfl
  | cons x h1 ih =>
    rw [List.map_cons, List.nodup_cons] at hnd
    simp only [List.lookup]
    cases k == x.1
    · exact ih hnd.2
    · rfl
  | swap x y l =>
    simp only [List.map_cons, List.nodup_cons, List.mem_cons] at hnd
    have hxy : y.1 ≠ x.1 := fun hh => hnd.1 (Or.inl hh)
    simp only [List.lookup]
    cases hb1 : k == y.1 <;> cases hb2 : k == x.1
    · rfl
    · rfl
    · rfl
    · exact absurd ((eq_of_beq hb1).symm.trans (eq_of_beq hb2)) hxy
  | trans h1 h2 ih1 ih2 =>
    rw [ih1 hnd, ih2 (((h1.map Prod.fst).nodup_iff).mp hnd)]

/-- C8.  The result of ApplyDefinition is a function of the key-value set of
the input mapping, not of its iteration order: for any two enumerations of the
same input map (permutations of each other, keys pairwise distinct), the
coerced mapping, the per-field error mapping (as key-to-value functions) and
the top-level error coincide.  The embedding is a pure function, so two calls
with identical arguments are identical by definition. -/
theorem C8_order_independent (d : Definition) (p : List String) (o : ApplyOptions)
    (m1 m2 : List (String × Value)) (hperm : m1.Perm m2)
    (hnd : (m1.map Prod.fst).Nodup) (k : String) :
    List.lookup k (ApplyDefinition d p m1 o).applied
      = List.lookup k (ApplyDefinition d p m2 o).applied ∧
    List.lookup k (ApplyDefinition d p m1 o).errors
      = List.lookup k (ApplyDefinition d p m2 o).errors ∧
    (ApplyDefinition d p m1 o).topErr = (ApplyDefinition d p m2 o).topErr := by
  by_cases hp : p = []
  · subst hp
    exact ⟨rfl, rfl, rfl⟩
  · have hnd2 : (m2.map Prod.fst).Nodup := ((hperm.map Prod.fst).nodup_iff).mp hnd
    have hl := lookup_eq_of_perm k m1 m2 hperm hnd
    have hlen : ¬ p.length = 0 := by simpa using hp
    refine ⟨?_, ?_, ?_⟩
    · rw [ApplyDefinition_applied_lookup d p m1 o k hp hnd,
        ApplyDefinition_applied_lookup d p m2 o k hp hnd2, hl]
    · rw [ApplyDefinition_errors_lookup d p m1 o k hp hnd,
        ApplyDefinition_errors_lookup d p m2 o k hp hnd2, hl]
    · simp [ApplyDefinition, hlen]

/-- C8, witness: swapping the two entries of a concrete input map leaves the
looked-up coerced value of "a" unchanged. -/
theorem C8_witness :
    List.lookup "a" (ApplyDefinition exBoolDef ["a", "b"]
        [("a", Value.str "true"), ("b", Value.str "x")] exOptsNone).applied
      = List.lookup "a" (ApplyDefinition exBoolDef ["a", "b"]
        [("b", Value.str "x"), ("a", Value.str "true")] exOptsNone).applied :=
  (C8_order_independent exBoolDef ["a", "b"] exOptsNone
    [("a", Value.str "true"), ("b", Value.str "x")]
    [("b", Value.str "x"), ("a", Value.str "true")]
    (List.Perm.swap ("b", Value.str "x") ("a", Value.str "true") [])
    (by decide) "a").1

/-- C9.  The strict string coercion (current `ensureString`, trimming disabled)
agrees with the legacy default-formatting revision exactly on string-typed
inputs; on every non-string input the strict version fails with the
type-mismatch error while the legacy version succeeds with the
default-formatted string. -/
theorem C9_strict_vs_legacy (v : Value) :
    (isStringValue v = true → ensureString v false = ensureStringLegacy v) ∧
    (ensureString v false = ensureStringLegacy v ↔ isStringValue v = true) ∧
    (isStringValue v = false →
      (ensureString v false).2
          = some ("Cannot convert type " ++ goTypeName v ++ " to string") ∧
      ensureStringLegacy v = (Value.str (goFormat v), none)) := by
  cases v with
  | str s =>
    exact ⟨fun _ => rfl, ⟨fun _ => rfl, fun _ => rfl⟩, fun h => by simp [isStringValue] at h⟩
  | bool b =>
    exact ⟨fun h => by simp [isStringValue] at h,
      ⟨fun h => by simp [ensureString, ensureStringLegacy] at h,
       fun h => by simp [isStringValue] at h⟩,
      fun _ => ⟨rfl, rfl⟩⟩
  | uuid u =>
    exact ⟨fun h => by simp [isStringValue] at h,
      ⟨fun h => by simp [ensureString, ensureStringLegacy] at h,
       fun h => by simp [isStringValue] at h⟩,
      fun _ => ⟨rfl, rfl⟩⟩
  | null =>
    exact ⟨fun h => by simp [isStringValue] at h,
      ⟨fun h => by simp [ensureString, ensureStringLegacy] at h,
       fun h => by simp [isStringValue] at h⟩,
      fun _ => ⟨rfl, rfl⟩⟩
  | other t disp =>
    exact ⟨fun h => by simp [isStringValue] at h,
      ⟨fun h => by simp [ensureString, ensureStringLegacy] at h,
       fun h => by simp [isStringValue] at h⟩,
      fun _ => ⟨rfl, rfl⟩⟩

/-- C9, witness: agreement on a string input; divergence on a bool input, where
the strict version errors and the legacy one succeeds with "true". -/
theorem C9_witness :
    ensureString (Value.str "abc") false = ensureStringLegacy (Value.str "abc") ∧
    (ensureString (Value.bool true) false).2
      = some "Cannot convert type bool to string" ∧
    ensureStringLegacy (Value.bool true) = (Value.str "true", none) :=
  ⟨(C9_strict_vs_legacy (Value.str "abc")).1 rfl,
   ((C9_strict_vs_legacy (Value.bool true)).2.2 rfl).1,
   ((C9_strict_vs_legacy (Value.bool true)).2.2 rfl).2⟩

theorem numberRx_nil (s : String) (h : s.toList = []) : numberRx s = true := by
  unfold numberRx
  rw [h]
  rfl

theorem numberRx_dash (s : String) (rest : List Char) (h : s.toList = '-' :: rest) :
    numberRx s = rest.all Char.isDigit := by
  unfold numberRx
  rw [h]
  rfl

theorem numberRx_other (s : String) (c : Char) (rest : List Char)
    (h : s.toList = c :: rest) (hc : c ≠ '-') :
    numberRx s = (c :: rest).all Char.isDigit := by
  unfold numberRx
  rw [h]
  split
  · rename_i r heq
    injection heq with h1 h2
    exact absurd h1 hc
  · rfl

/-- C10.  ValidateNumbers succeeds on a string s iff s is an optional leading
minus sign followed by zero or more decimal digits; in particular it accepts ""
and "-"; and it fails with "Field must be string" on every non-string value. -/
theorem C10_validateNumbers (s : String) (v : Value) :
    (ValidateNumbers (Value.str s) = none ↔
      ∃ t : List Char, (s.toList = t ∨ s.toList = '-' :: t) ∧ ∀ c ∈ t, c.isDigit = true) ∧
    ValidateNumbers (Value.str "") = none ∧
    ValidateNumbers (Value.str "-") = none ∧
    (isStringValue v = false → ValidateNumbers v = some "Field must be string") := by
  refine ⟨?_, by decide, by decide, fun hs => ?_⟩
  · have h0 : ValidateNumbers (Value.str s) = none ↔ numberRx s = true := by
      by_cases hrx : numberRx s = true
      · simp [ValidateNumbers, ValidateRegex, hrx]
      · simp [ValidateNumbers, ValidateRegex, hrx]
    rw [h0]
    cases hl : s.toList with
    | nil =>
      rw [numberRx_nil s hl]
      simp only [true_iff]
      exact ⟨[], Or.inl rfl, by simp⟩
    | cons c rest =>
      by_cases hc : c = '-'
      · subst hc
        rw [numberRx_dash s rest hl]
        constructor
        · intro h
          exact ⟨rest, Or.inr rfl, by simpa [List.all_eq_true] using h⟩
        · rintro ⟨t, ht | ht, hdig⟩
          · have hmem : '-' ∈ t := by rw [← ht]; simp
            exact absurd (hdig '-' hmem) (by decide)
          · injection ht with h1 h2
            subst h2
            simpa [List.all_eq_true] using hdig
      · rw [numberRx_other s c rest hl hc]
        constructor
        · intro h
          exact ⟨c :: rest, Or.inl rfl, by simpa [List.all_eq_true] using h⟩
        · rintro ⟨t, ht | ht, hdig⟩
          · subst ht
            simpa [List.all_eq_true] using hdig
          · injection ht with h1 h2
            exact absurd h1 hc
  · cases v with
    | str s2 => simp [isStringValue] at hs
    | bool b => rfl
    | uuid u => rfl
    | null => rfl
    | other t disp => rfl

/-- C10, witness: "-123" is accepted via the characterization, and a bool input
fails with "Field must be string". -/
theorem C10_witness :
    ValidateNumbers (Value.str "-123") = none ∧
    ValidateNumbers (Value.bool true) = some "Field must be string" :=
  ⟨(C10_validateNumbers "-123" Value.null).1.mpr
      ⟨['1', '2', '3'], Or.inr rfl, by decide⟩,
   (C10_validateNumbers "" (Value.bool true)).2.2.2 rfl⟩

end GoForms
